import Mathlib

/-!
# Verification of the goodmetrics postgres ingestion sink

A shallow embedding of the ingestion sink of the goodmetrics repository:
`src/server/sink/postgres_sink.rs` and
`src/server/postgres_things/type_conversion.rs`.  Pure helper functions are
translated to Lean functions; the effectful parts (the COPY writer, the
error-handling retry loop) are translated to explicit state passing, with
database responses supplied by oracle parameters and Rust panics made
explicit as `Option`/sum results.
-/

namespace Goodmetrics

/-! ## Wire data model

The protobuf wire schema (`proto/metrics/pb`) is not part of the source
snapshot; the shapes below follow §3 of the specification, which the sink
code (`postgres_sink.rs`) matches exhaustively.  Floating-point payloads are
carried as opaque IEEE bit patterns: no code under verification computes
with them. -/

/-- An f64/f32 payload, carried as its raw bit pattern. -/
structure FloatBits where
  bits : Nat
deriving DecidableEq, Repr

/-- `StatisticSet {min, max, sum, count}` aggregate (spec §3). -/
structure StatSet where
  minimum : FloatBits
  maximum : FloatBits
  samplesum : FloatBits
  samplecount : Int
deriving DecidableEq, Repr

/-- Histogram: a map of bucket → count (spec §3 and §4.2). -/
structure Histogram where
  buckets : List (Int × Nat)
deriving DecidableEq, Repr

/-- Modelled from the spec: `Histogram::to_stupidmap` (histogram.rs is not in
the source snapshot); the code "encodes histograms as a map of bucket→count"
(spec §4.2), so the conversion exposes the bucket→count pairs. -/
def Histogram.to_stupidmap (h : Histogram) : List (Int × Nat) :=
  h.buckets

/-- `dimension::Value`: a tagged dimension value (spec §3).  `Number` is an
unsigned 64-bit value on the wire. -/
inductive DimensionValue
  | string (s : String)
  | number (n : Nat)
  | boolean (b : Bool)
deriving DecidableEq, Repr

/-- `Dimension`: a protobuf message whose oneof `value` may be unset. -/
structure Dimension where
  value : Option DimensionValue
deriving DecidableEq, Repr

/-- `measurement::Value`: a tagged measurement value.
Modelled from the spec: §3 lists the variants
`I64 | I32 | F64 | F32 | StatisticSet | Histogram`, which is the variant set
`postgres_sink.rs` matches exhaustively.  (`type_conversion.rs` matches the
older wire names `Inumber`/`Fnumber` for the scalar variants; see
`TypeConverter.measurement_sql_type`.) -/
inductive MeasurementValue
  | i64 (i : Int)
  | i32 (i : Int)
  | f64 (f : FloatBits)
  | f32 (f : FloatBits)
  | statisticSet (s : StatSet)
  | histogram (h : Histogram)
deriving DecidableEq, Repr

/-- `Measurement`: a protobuf message whose oneof `value` may be unset. -/
structure Measurement where
  value : Option MeasurementValue
deriving DecidableEq, Repr

/-- `Datum` (spec §3).  The wire `map<string, …>` fields are carried as
association lists; wire maps have unique keys. -/
structure Datum where
  metric : String
  unix_nanos : Nat
  dimensions : List (String × Dimension)
  measurements : List (String × Measurement)
deriving DecidableEq, Repr

/-! ## Postgres types and maps

`tokio_postgres::types::Type` values used by the sink.  The composite types
fetched from the database at startup are carried as named types. -/

/-- The postgres type of a column, as bound by the COPY writer. -/
inductive PgType
  | int8
  | int4
  | float8
  | float4
  | text
  | bool
  | timestamptz
  | jsonb
  | named (n : String)
deriving DecidableEq, Repr

/-- Lookup in an association list: `HashMap::get` / `BTreeMap` key lookup
(first matching key; the maps built here have unique keys). -/
def mapLookup (k : String) (m : List (String × α)) : Option α :=
  match m with
  | [] => none
  | kv :: rest => if kv.1 = k then some kv.2 else mapLookup k rest

/-- `BTreeMap` insert: keeps the association list strictly sorted by key and
overwrites an existing binding. -/
def btreeInsert (k : String) (v : α) : List (String × α) → List (String × α)
  | [] => [(k, v)]
  | kv :: rest =>
    if k < kv.1 then (k, v) :: kv :: rest
    else if k = kv.1 then (k, v) :: rest
    else kv :: btreeInsert k v rest

/-- `BTreeMap::from_iter` / `collect()`: left fold of overwriting inserts,
so a later binding for the same key wins. -/
def btreeCollect (l : List (String × α)) : List (String × α) :=
  l.foldl (fun m kv => btreeInsert kv.1 kv.2 m) []

/-! ## Type conversion (`type_conversion.rs`) -/

/-- `TypeConverter`: carries the composite types fetched from the database
at startup (`statistic_set`, `histogram`). -/
structure TypeConverter where
  statistic_set_type : PgType
  histogram_type : PgType

/-- `TypeConverter::measurement_sql_type` (type_conversion.rs:13–20).  The
source matches the wire variants `Inumber` (integer scalar) and `Fnumber`
(floating scalar): under the spec's wire model these cover the `i64`/`i32`
and `f64`/`f32` constructors respectively.  An unset value yields `none`. -/
def TypeConverter.measurement_sql_type (tc : TypeConverter) (m : Measurement) :
    Option PgType :=
  m.value.map fun v =>
    match v with
    | .i64 _ => PgType.int8
    | .i32 _ => PgType.int8
    | .f64 _ => PgType.float8
    | .f32 _ => PgType.float8
    | .statisticSet _ => tc.statistic_set_type
    | .histogram _ => PgType.jsonb

/-- `TypeConverter::dimension_sql_type` (type_conversion.rs:22–28). -/
def TypeConverter.dimension_sql_type (_tc : TypeConverter) (d : Dimension) :
    Option PgType :=
  d.value.map fun v =>
    match v with
    | .string _ => PgType.text
    | .number _ => PgType.int8
    | .boolean _ => PgType.bool

/-- `TypeConverter::get_dimension_type_map` (type_conversion.rs:30–40):
flatten every datum's dimensions, keep the entries with a set value, and
collect into a `BTreeMap` (later entries overwrite earlier ones). -/
def TypeConverter.get_dimension_type_map (tc : TypeConverter)
    (datums : List Datum) : List (String × PgType) :=
  btreeCollect <|
    (datums.flatMap (·.dimensions)).filterMap fun kv =>
      (tc.dimension_sql_type kv.2).map fun t => (kv.1, t)

/-- `TypeConverter::get_measurement_type_map` (type_conversion.rs:42–52). -/
def TypeConverter.get_measurement_type_map (tc : TypeConverter)
    (datums : List Datum) : List (String × PgType) :=
  btreeCollect <|
    (datums.flatMap (·.measurements)).filterMap fun kv =>
      (tc.measurement_sql_type kv.2).map fun t => (kv.1, t)

/-! ## Identifier sanitizing -/

/-- Characters legal in a cleaned identifier: `[a-z0-9_]`. -/
def isCleanChar (c : Char) : Bool :=
  (('a' ≤ c) && (c ≤ 'z')) || (('0' ≤ c) && (c ≤ '9')) || c = '_'

/-- Replace each maximal run of characters outside `[a-z0-9_]` with one
underscore; the `Bool` records whether the previous character was part of
such a run. -/
def replaceRunsAux : Bool → List Char → List Char
  | _, [] => []
  | inRun, c :: rest =>
    if isCleanChar c then c :: replaceRunsAux false rest
    else if inRun then replaceRunsAux true rest
    else '_' :: replaceRunsAux true rest

/-- Modelled from the spec: `clean_id` lives in `ddl.rs`, which is not in the
source snapshot.  Spec §4.2: "sanitize to a safe SQL identifier: lowercase,
replace runs of non-`[a-z0-9_]` with `_`, strip leading digits." -/
def clean_id (s : String) : String :=
  String.mk
    ((replaceRunsAux false (s.toList.map Char.toLower)).dropWhile Char.isDigit)

/-! ## Column vectors and the COPY statement (`postgres_sink.rs`) -/

/-- `get_all_column_types` (postgres_sink.rs:451–459): `TIMESTAMPTZ`, then
the dimension types, then the measurement types, in map (key) order. -/
def get_all_column_types (dimension_types measurement_types :
    List (String × PgType)) : List PgType :=
  PgType.timestamptz :: (dimension_types.map (·.2) ++ measurement_types.map (·.2))

/-- `get_all_column_names` (postgres_sink.rs:461–470): `"time"`, then the
cleaned dimension names, then the cleaned measurement names, in map (raw
key) order. -/
def get_all_column_names (dimension_types measurement_types :
    List (String × PgType)) : List String :=
  "time" :: (dimension_types.map (fun kv => clean_id kv.1)
    ++ measurement_types.map (fun kv => clean_id kv.1))

/-- The COPY statement issued by `run_a_batch` (postgres_sink.rs:254–259). -/
def copy_statement (metric : String) (all_column_names : List String) : String :=
  "copy " ++ clean_id metric ++ " (" ++ String.intercalate "," all_column_names
    ++ ") from stdin with binary"

/-! ## The binary COPY writer (`write_and_close`, postgres_sink.rs:394–448) -/

/-- `u64 as i64`: the cast applied to a `dimension::Value::Number` payload. -/
def u64_as_i64 (n : Nat) : Int :=
  if n < 2 ^ 63 then (n : Int) else (n : Int) - 2 ^ 64

/-- One cell of a binary COPY row, as boxed by `write_and_close`.
`nullString` is `Box::new(Option::<String>::None)` and `nullF64` is
`Box::new(Option::<f64>::None)`: both serialize as a bare NULL. -/
inductive Cell
  | timestamp (unix_nanos : Nat)
  | text (s : String)
  | int8 (i : Int)
  | boolean (b : Bool)
  | i64 (i : Int)
  | i32 (i : Int)
  | f64 (f : FloatBits)
  | f32 (f : FloatBits)
  | statisticSet (s : StatSet)
  | histogramMap (h : List (Int × Nat))
  | nullString
  | nullF64
deriving DecidableEq, Repr

/-- The dimension cell pushed for one schema dimension name
(postgres_sink.rs:408–424), together with the warnings logged: a datum
lacking the key warns and pushes a NULL; a present key with unset value
pushes a NULL without warning. -/
def dimension_cell (datum : Datum) (name : String) : Cell × List String :=
  match mapLookup name datum.dimensions with
  | none => (Cell.nullString, ["skipping dimension: " ++ name])
  | some dim =>
    match dim.value with
    | some (.string s) => (Cell.text s, [])
    | some (.number n) => (Cell.int8 (u64_as_i64 n), [])
    | some (.boolean b) => (Cell.boolean b, [])
    | none => (Cell.nullString, [])

/-- The cell pushed for one present measurement entry
(postgres_sink.rs:428–440): a set value is boxed typed, an unset value is
pushed as `Option::<f64>::None`. -/
def measurement_cell_value (m : Measurement) : Cell :=
  match m.value with
  | some (.i64 i) => Cell.i64 i
  | some (.i32 i) => Cell.i32 i
  | some (.f64 f) => Cell.f64 f
  | some (.f32 f) => Cell.f32 f
  | some (.statisticSet s) => Cell.statisticSet s
  | some (.histogram h) => Cell.histogramMap h.to_stupidmap
  | none => Cell.nullF64

/-- The measurement cell for one schema measurement name
(postgres_sink.rs:426–427): `&datum.measurements[measurement_name]` indexes
the map without a `contains_key` guard, so a datum lacking the key panics —
modelled as `none`. -/
def measurement_cell (datum : Datum) (name : String) : Option Cell :=
  (mapLookup name datum.measurements).map measurement_cell_value

/-- The `for measurement_name in measurements.keys()` loop
(postgres_sink.rs:426–441): the measurement cells in schema order, `none`
when any schema name is absent from the datum (the indexing panic). -/
def measurement_cells (datum : Datum) :
    List (String × PgType) → Option (List Cell)
  | [] => some []
  | kv :: rest =>
    match measurement_cell datum kv.1, measurement_cells datum rest with
    | some c, some cs => some (c :: cs)
    | _, _ => none

/-- One row built by the `for datum in data` loop of `write_and_close`:
the timestamp, the dimension cells in schema order, then the measurement
cells in schema order; `none` models the panic on a measurement name the
datum lacks.  Also returns the warnings logged while building the row. -/
def row_cells (dims meas : List (String × PgType)) (datum : Datum) :
    Option (List Cell × List String) :=
  (measurement_cells datum meas).map fun mcells =>
    (Cell.timestamp datum.unix_nanos
        :: (dims.map fun kv => (dimension_cell datum kv.1).1) ++ mcells,
      dims.flatMap fun kv => (dimension_cell datum kv.1).2)

/-- Result of a completed `write_and_close`: the rows streamed to the COPY
sink, the warnings logged, and the returned row count (`data.len()`). -/
structure WriteResult where
  rows : List (List Cell)
  warns : List String
  returned : Nat
deriving DecidableEq, Repr

/-- The row loop of `write_and_close`, collecting rows and warnings; the
`?` on each row write makes a panic abort the whole call. -/
def write_rows (dims meas : List (String × PgType)) :
    List Datum → Option (List (List Cell) × List String)
  | [] => some ([], [])
  | d :: rest =>
    match row_cells dims meas d, write_rows dims meas rest with
    | some (cells, warns), some (rs, ws) => some (cells :: rs, warns ++ ws)
    | _, _ => none

/-- `write_and_close` (postgres_sink.rs:394–448): emit one row per datum and
return `data.len()`; `none` models the panic on a datum lacking a
measurement name of the batch schema. -/
def write_and_close (dims meas : List (String × PgType)) (data : List Datum) :
    Option WriteResult :=
  (write_rows dims meas data).map fun rs =>
    { rows := rs.1
      warns := rs.2
      returned := data.length }

/-! ## Grouping (`group_metrics`, postgres_sink.rs:472–482) -/

/-- The sort relation of `sorted_by_key(|d| d.metric.clone())`. -/
def metricLe (a b : Datum) : Prop :=
  a.metric ≤ b.metric

instance : DecidableRel metricLe := fun a b =>
  inferInstanceAs (Decidable (a.metric ≤ b.metric))

instance : IsTotal Datum metricLe :=
  ⟨fun a b => le_total a.metric b.metric⟩

instance : IsTrans Datum metricLe :=
  ⟨fun _ _ _ hab hbc => le_trans hab hbc⟩

/-- Itertools `group_by`: split a list into maximal runs of consecutive
elements with equal metric, keyed by that metric. -/
def groupRuns : List Datum → List (String × List Datum)
  | [] => []
  | d :: rest =>
    match groupRuns rest with
    | [] => [(d.metric, [d])]
    | (k, g) :: gs =>
      if d.metric = k then (k, d :: g) :: gs
      else (d.metric, [d]) :: (k, g) :: gs

/-- `group_metrics` (postgres_sink.rs:472–482): stable-sort the batch by
metric name (Rust's `sorted_by_key` is a stable sort; `List.insertionSort`
realizes the same function), group consecutive runs, and collect into a
`BTreeMap`. -/
def group_metrics (batch : List Datum) : List (String × List Datum) :=
  btreeCollect (groupRuns (List.insertionSort metricLe batch))

/-! ## Errors and their classification -/

/-- The SQLSTATE codes the sink distinguishes. -/
inductive SqlStateCode
  | undefinedColumn
  | undefinedTable
  | insufficientPrivilege
  | other (code : String)
deriving DecidableEq, Repr

/-- A server-reported database error: SQLSTATE plus message text. -/
structure DbError where
  code : SqlStateCode
  message : String
deriving DecidableEq, Repr

/-- A `tokio_postgres::Error`: either a server-side database error
(`as_db_error() = Some`) or a client/transport error, whose `source()` may
be a `WrongType` mismatch, some other cause, or absent. -/
structure PgError where
  dbError : Option DbError
  sourceIsWrongType : Option Bool
deriving DecidableEq, Repr

/-- `SinkError` (postgres_sink.rs:93–109). -/
inductive SinkError
  | postgres (e : PgError)
  | describedError (message : String) (inner : PgError)
  | stringError (message : String)
  | missingColumn (table column data_type : String)
  | missingTable (table : String)
deriving DecidableEq, Repr

/-- `sql_data_type_string` (postgres_sink.rs:484–493): the DDL type name of
a measurement; the source unwraps `measurement.value`, so an unset value —
`none` here — panics. -/
def sql_data_type_string (measurement : Measurement) : Option String :=
  measurement.value.map fun v =>
    match v with
    | .i64 _ => "int8"
    | .i32 _ => "int4"
    | .f64 _ => "float8"
    | .f32 _ => "float4"
    | .statisticSet _ => "statistic_set"
    | .histogram _ => "histogram"

/-- `sql_dimension_type_string` (postgres_sink.rs:495–501); unwraps the
value, so `none` models the panic on an unset value. -/
def sql_dimension_type_string (dimension : Dimension) : Option String :=
  dimension.value.map fun v =>
    match v with
    | .string _ => "text"
    | .number _ => "int8"
    | .boolean _ => "boolean"

/-- Strip `pat` from the front of `s`, if it is a prefix. -/
def stripPat? : List Char → List Char → Option (List Char)
  | [], s => some s
  | _ :: _, [] => none
  | p :: ps, c :: cs => if p = c then stripPat? ps cs else none

/-- The text after the first occurrence of `pat`, or `none`. -/
def afterPat? (pat : List Char) : List Char → Option (List Char)
  | [] => match pat with
    | [] => some []
    | _ :: _ => none
  | c :: rest =>
    match stripPat? pat (c :: rest) with
    | some suffix => some suffix
    | none => afterPat? pat rest

/-- The text strictly before the first occurrence of `pat`, or `none`. -/
def beforePat? (pat : List Char) : List Char → Option (List Char)
  | [] => match pat with
    | [] => some []
    | _ :: _ => none
  | c :: rest =>
    if (stripPat? pat (c :: rest)).isSome then some []
    else (beforePat? pat rest).map (c :: ·)

/-- Text after the first occurrence of `pre` in `msg`, or `none`. -/
def textAfter (pre msg : String) : Option String :=
  (afterPat? pre.toList msg.toList).map String.mk

/-- Text strictly before the first occurrence of `post` in `msg`. -/
def textBefore (post msg : String) : Option String :=
  (beforePat? post.toList msg.toList).map String.mk

/-- The regex `column "(?P<column>.+)" of relation "(?P<table>.+)" does not
exist` (postgres_sink.rs:113) applied to a well-formed postgres message, in
which each delimiter occurs once. -/
def captureUndefinedColumn (msg : String) : Option (String × String) :=
  (textAfter "column \x22" msg).bind fun rest =>
    (textBefore "\x22 of relation \x22" rest).bind fun column =>
      (textAfter "\x22 of relation \x22" rest).bind fun rest2 =>
        (textBefore "\x22 does not exist" rest2).map fun table =>
          (column, table)

/-- The regex `relation "(?P<table>.+)" does not exist`
(postgres_sink.rs:114) applied to a well-formed postgres message. -/
def captureUndefinedTable (msg : String) : Option String :=
  (textAfter "relation \x22" msg).bind fun rest =>
    textBefore "\x22 does not exist" rest

/-- Outcome of a code path that either produces a value or panics. -/
inductive PanicOr (α : Type)
  | ok (a : α)
  | panic (msg : String)
deriving DecidableEq, Repr

/-- The error arm of the COPY open in `run_a_batch`
(postgres_sink.rs:263–314): parse UNDEFINED_COLUMN / UNDEFINED_TABLE
messages into structured errors, falling back to the raw postgres error.
The `.unwrap()` on the regex captures and on `sql_dimension_type_string`
panic when they fail, modelled with `PanicOr`. -/
def classify_copy_open_error (datums : List Datum) (postgres_error : PgError) :
    PanicOr SinkError :=
  match postgres_error.dbError with
  | some dberror =>
    match dberror.code with
    | .undefinedColumn =>
      match captureUndefinedColumn dberror.message with
      | none => .panic "called Option::unwrap on a None value"
      | some (column, table) =>
        let the_type : Option (Option String) :=
          datums.findSome? fun d =>
            match mapLookup column d.dimensions with
            | some dim => some (sql_dimension_type_string dim)
            | none =>
              match mapLookup column d.measurements with
              | some measurement => some (sql_data_type_string measurement)
              | none => none
        match the_type with
        | some (some t) => .ok (.missingColumn table column t)
        | some none => .panic "called Option::unwrap on a None value"
        | none =>
          .ok (.describedError "Type not foud, can't add column" postgres_error)
    | .undefinedTable =>
      match captureUndefinedTable dberror.message with
      | none => .panic "called Option::unwrap on a None value"
      | some table => .ok (.missingTable table)
    | _ => .ok (.postgres postgres_error)
  | none => .ok (.postgres postgres_error)

/-- Result of one `run_a_batch` call. -/
inductive RunResult
  | ok (rows : Nat)
  | err (e : SinkError)
  | panicked (msg : String)
deriving DecidableEq, Repr

/-- `run_a_batch` (postgres_sink.rs:240–321), with the database's response
to the COPY open supplied as `copy_open_error` (`none` = the open
succeeded); the stream writes themselves are taken to succeed. -/
def run_a_batch (tc : TypeConverter) (_metric : String) (datums : List Datum)
    (copy_open_error : Option PgError) : RunResult :=
  let dimension_types := tc.get_dimension_type_map datums
  let measurement_types := tc.get_measurement_type_map datums
  match copy_open_error with
  | some postgres_error =>
    match classify_copy_open_error datums postgres_error with
    | .ok e => .err e
    | .panic m => .panicked m
  | none =>
    match write_and_close dimension_types measurement_types datums with
    | some res => .ok res.returned
    | none => .panicked "index out of bounds on measurements"

/-! ## The error handler (`handle_error_and_should_it_retry`,
postgres_sink.rs:323–391) -/

/-- A statement the error handler runs against the checked-out connection. -/
inductive Effect
  | simpleQuery (sql : String)
  | addColumn (table column data_type : String)
  | createTable (table : String)
deriving DecidableEq, Repr

/-- The database's responses to the handler's DDL statements: `none` means
the statement succeeded. -/
structure DdlOracle where
  add_column_result : String → String → String → Option PgError
  create_table_result : String → Option PgError

/-- Outcome of `handle_error_and_should_it_retry`: `Ok(bool)`, `Err(e)`, or
a panic (the `todo!()` arms). -/
inductive HandleResult
  | ok (should_retry : Bool)
  | err (e : SinkError)
  | panic (msg : String)
deriving DecidableEq, Repr

/-- `handle_error_and_should_it_retry` (postgres_sink.rs:323–391): returns
the statements issued on the connection and the outcome.  Every
`SinkError::Postgres` arm returns `Ok(false)`; `MissingColumn` probes the
connection then issues `add_column` and returns `Ok(true)`; `MissingTable`
issues `create_table` and returns `Ok(true)`; the `DescribedError` and
`StringError` arms are `todo!()`, which panics. -/
def handle_error_and_should_it_retry (oracle : DdlOracle) (e : SinkError) :
    List Effect × HandleResult :=
  match e with
  | .postgres postgres_error =>
    match postgres_error.dbError with
    | some dberror =>
      match dberror.code with
      | .insufficientPrivilege => ([], .ok false)
      | _ => ([], .ok false)
    | none =>
      match postgres_error.sourceIsWrongType with
      | some true => ([], .ok false)
      | some false => ([], .ok false)
      | none => ([], .ok false)
  | .missingColumn table column data_type =>
    let effects := [Effect.simpleQuery "select 1",
      Effect.addColumn table column data_type]
    match oracle.add_column_result table column data_type with
    | none => (effects, .ok true)
    | some err => (effects, .err (.postgres err))
  | .missingTable table =>
    let effects := [Effect.createTable table]
    match oracle.create_table_result table with
    | none => (effects, .ok true)
    | some err => (effects, .err (.postgres err))
  | .describedError _ _ => ([], .panic "not yet implemented")
  | .stringError _ => ([], .panic "not yet implemented")

/-! ## The per-metric attempt loop (`send_some`, postgres_sink.rs:195–238) -/

/-- The environment `send_some` interacts with in iteration `i` of its
`while try_again` loop: the first pool checkout, the `run_a_batch` outcome,
the second checkout performed on the error path (`none` = success), and the
DDL responses. -/
structure SinkEnv where
  checkout_ok : Nat → Bool
  run_batch : Nat → RunResult
  second_checkout_error : Nat → Option SinkError
  ddl : DdlOracle

/-- How one `send_some` invocation ends. -/
inductive SendOutcome
  | committed
  | dropped
  | errExit (e : SinkError)
  | panicked (msg : String)
  | outOfFuel
deriving Repr

/-- The `while try_again` loop of `send_some` (postgres_sink.rs:201–236),
with an explicit iteration counter and fuel.  A failed first checkout logs
"Dropping metrics because I can't get a connection" and then executes
`continue` with `try_again` still `true`, so the loop re-runs; a failed
second checkout propagates through `?`; a handler `Err` logs and sets
`try_again = false`. -/
def send_some_loop (env : SinkEnv) : Nat → Nat → SendOutcome
  | 0, _ => .outOfFuel
  | fuel + 1, i =>
    if env.checkout_ok i then
      match env.run_batch i with
      | .ok _ => .committed
      | .panicked msg => .panicked msg
      | .err e =>
        match env.second_checkout_error i with
        | some err => .errExit err
        | none =>
          match handle_error_and_should_it_retry env.ddl e with
          | (_, .ok true) => send_some_loop env fuel (i + 1)
          | (_, .ok false) => .dropped
          | (_, .err _) => .dropped
          | (_, .panic msg) => .panicked msg
    else
      send_some_loop env fuel (i + 1)

/-! ## Lemmas about the association maps -/

/-- The value of the last entry of `l` whose key is `k` (later entries win,
as in `BTreeMap::from_iter`). -/
def lastMatch (k : String) : List (String × α) → Option α
  | [] => none
  | kv :: rest =>
    match lastMatch k rest with
    | some v => some v
    | none => if kv.1 = k then some kv.2 else none

/-- Keys strictly ascend, as in a `BTreeMap`. -/
def KeysSorted (m : List (String × α)) : Prop :=
  m.Pairwise fun a b => a.1 < b.1

theorem mapLookup_btreeInsert (k k' : String) (v : α) (m : List (String × α)) :
    mapLookup k (btreeInsert k' v m) =
      if k' = k then some v else mapLookup k m := by
  induction m with
  | nil => simp [btreeInsert, mapLookup]
  | cons kv rest ih =>
    by_cases h1 : k' < kv.1
    · simp only [btreeInsert, if_pos h1]
      by_cases h : k' = k
      · simp [mapLookup, h]
      · simp [mapLookup, h]
    · by_cases h2 : k' = kv.1
      · simp only [btreeInsert, if_neg h1, if_pos h2]
        by_cases h : k' = k
        · simp [mapLookup, h]
        · have hkv : ¬ kv.1 = k := fun he => h (h2.trans he)
          simp [mapLookup, h, hkv]
      · simp only [btreeInsert, if_neg h1, if_neg h2]
        by_cases h : kv.1 = k
        · have hk : ¬ k' = k := fun he => h2 (he.trans h.symm)
          simp [mapLookup, h, hk]
        · simp [mapLookup, h, ih]

theorem mem_btreeInsert {k : String} {v : α} {m : List (String × α)}
    {b : String × α} (hb : b ∈ btreeInsert k v m) : b = (k, v) ∨ b ∈ m := by
  induction m with
  | nil => simpa [btreeInsert] using hb
  | cons kv rest ih =>
    by_cases h1 : k < kv.1
    · simp only [btreeInsert, if_pos h1, List.mem_cons] at hb
      rcases hb with h | h | h
      · exact Or.inl h
      · exact Or.inr (List.mem_cons.2 (Or.inl h))
      · exact Or.inr (List.mem_cons.2 (Or.inr h))
    · by_cases h2 : k = kv.1
      · simp only [btreeInsert, if_neg h1, if_pos h2, List.mem_cons] at hb
        rcases hb with h | h
        · exact Or.inl h
        · exact Or.inr (List.mem_cons.2 (Or.inr h))
      · simp only [btreeInsert, if_neg h1, if_neg h2, List.mem_cons] at hb
        rcases hb with h | h
        · exact Or.inr (List.mem_cons.2 (Or.inl h))
        · rcases ih h with h' | h'
          · exact Or.inl h'
          · exact Or.inr (List.mem_cons.2 (Or.inr h'))

theorem keysSorted_btreeInsert (k : String) (v : α) {m : List (String × α)}
    (hm : KeysSorted m) : KeysSorted (btreeInsert k v m) := by
  induction m with
  | nil => simp [btreeInsert, KeysSorted]
  | cons kv rest ih =>
    rw [KeysSorted, List.pairwise_cons] at hm
    obtain ⟨hall, hrest⟩ := hm
    by_cases h1 : k < kv.1
    · rw [KeysSorted]
      simp only [btreeInsert, if_pos h1]
      refine List.pairwise_cons.2 ⟨?_, List.pairwise_cons.2 ⟨hall, hrest⟩⟩
      intro b hb
      rcases List.mem_cons.1 hb with he | hmem
      · rw [he]
        exact h1
      · exact lt_trans h1 (hall b hmem)
    · by_cases h2 : k = kv.1
      · rw [KeysSorted]
        simp only [btreeInsert, if_neg h1, if_pos h2]
        refine List.pairwise_cons.2 ⟨?_, hrest⟩
        intro b hb
        rw [h2]
        exact hall b hb
      · rw [KeysSorted]
        simp only [btreeInsert, if_neg h1, if_neg h2]
        have hkvk : kv.1 < k :=
          lt_of_le_of_ne (not_lt.1 h1) fun he => h2 he.symm
        refine List.pairwise_cons.2 ⟨?_, ih hrest⟩
        intro b hb
        rcases mem_btreeInsert hb with he | hmem
        · rw [he]
          exact hkvk
        · exact hall b hmem

theorem mapLookup_foldl_btreeInsert (k : String) (l m : List (String × α)) :
    mapLookup k (l.foldl (fun acc kv => btreeInsert kv.1 kv.2 acc) m) =
      match lastMatch k l with
      | some v => some v
      | none => mapLookup k m := by
  induction l generalizing m with
  | nil => simp [lastMatch]
  | cons kv rest ih =>
    simp only [List.foldl_cons, lastMatch]
    rw [ih]
    cases h : lastMatch k rest with
    | some v => simp
    | none =>
      simp only
      rw [mapLookup_btreeInsert]
      by_cases hk : kv.1 = k <;> simp [hk]

theorem mapLookup_btreeCollect (k : String) (l : List (String × α)) :
    mapLookup k (btreeCollect l) = lastMatch k l := by
  have h := mapLookup_foldl_btreeInsert k l []
  rw [btreeCollect, h]
  cases lastMatch k l <;> simp [mapLookup]

theorem keysSorted_btreeCollect (l : List (String × α)) :
    KeysSorted (btreeCollect l) := by
  suffices h : ∀ m : List (String × α), KeysSorted m →
      KeysSorted (l.foldl (fun acc kv => btreeInsert kv.1 kv.2 acc) m) from
    h [] (by simp [KeysSorted])
  induction l with
  | nil => exact fun m hm => hm
  | cons kv rest ih =>
    intro m hm
    exact ih _ (keysSorted_btreeInsert kv.1 kv.2 hm)

theorem lastMatch_append (k : String) (l₁ l₂ : List (String × α)) :
    lastMatch k (l₁ ++ l₂) =
      match lastMatch k l₂ with
      | some v => some v
      | none => lastMatch k l₁ := by
  induction l₁ with
  | nil => cases h : lastMatch k l₂ <;> simp [lastMatch, h]
  | cons kv rest ih =>
    simp only [List.cons_append, lastMatch, List.append_eq]
    rw [ih]
    cases h : lastMatch k l₂ with
    | some v => simp
    | none => simp

theorem lastMatch_eq_getLast?_filter (k : String) (l : List (String × α)) :
    lastMatch k l = ((l.filter fun kv => kv.1 == k).getLast?).map (·.2) := by
  induction l using List.reverseRecOn with
  | nil => simp [lastMatch]
  | append_singleton l kv ih =>
    rw [lastMatch_append, List.filter_append]
    by_cases hk : kv.1 = k
    · simp [lastMatch, hk]
    · simp [lastMatch, hk, ih]

theorem lastMatch_isSome (k : String) (l : List (String × α)) :
    (lastMatch k l).isSome ↔ ∃ kv ∈ l, kv.1 = k := by
  induction l with
  | nil => simp [lastMatch]
  | cons kv rest ih =>
    simp only [lastMatch, List.mem_cons]
    cases h : lastMatch k rest with
    | some v =>
      simp only [Option.isSome_some, true_iff]
      obtain ⟨kv', hmem, hkv'⟩ := ih.1 (by simp [h])
      exact ⟨kv', Or.inr hmem, hkv'⟩
    | none =>
      rw [h] at ih
      simp only [Option.isSome_none, Bool.false_eq_true, false_iff] at ih
      by_cases hk : kv.1 = k
      · simp only [if_pos hk, Option.isSome_some, true_iff]
        exact ⟨kv, Or.inl rfl, hk⟩
      · simp only [if_neg hk, Option.isSome_none, Bool.false_eq_true, false_iff]
        rintro ⟨kv', hor, hkv'⟩
        rcases hor with he | hmem
        · exact hk (he ▸ hkv')
        · exact ih ⟨kv', hmem, hkv'⟩

theorem lastMatch_filterMap_isSome {β : Type} (g : β → Option PgType)
    (pairs : List (String × β)) (n : String) :
    (lastMatch n (pairs.filterMap fun kv =>
        (g kv.2).map fun t => (kv.1, t))).isSome = true ↔
      ∃ kv ∈ pairs, kv.1 = n ∧ (g kv.2).isSome = true := by
  rw [lastMatch_isSome]
  constructor
  · rintro ⟨kv', hmem, hn⟩
    obtain ⟨kv, hkv, hf⟩ := List.mem_filterMap.1 hmem
    obtain ⟨t, ht, hpair⟩ := Option.map_eq_some'.1 hf
    refine ⟨kv, hkv, ?_, ?_⟩
    · rw [← hn, ← hpair]
    · rw [ht]
      rfl
  · rintro ⟨kv, hkv, hn, hsome⟩
    obtain ⟨t, ht⟩ := Option.isSome_iff_exists.1 hsome
    exact ⟨(kv.1, t),
      List.mem_filterMap.2 ⟨kv, hkv, by rw [ht, Option.map_some']⟩, hn⟩

/-! ## Lemmas about grouping -/

theorem filter_orderedInsert (m : String) (a : Datum) (l : List Datum) :
    (List.orderedInsert metricLe a l).filter (fun d => d.metric == m) =
      if a.metric == m then a :: l.filter (fun d => d.metric == m)
      else l.filter (fun d => d.metric == m) := by
  induction l with
  | nil =>
    by_cases ha : a.metric == m <;> simp [List.orderedInsert, ha]
  | cons b l ih =>
    by_cases hr : metricLe a b
    · rw [List.orderedInsert, if_pos hr]
      by_cases ha : a.metric == m <;> simp [List.filter_cons, ha]
    · rw [List.orderedInsert, if_neg hr]
      by_cases ha : a.metric == m
      · by_cases hb : b.metric == m
        · exact absurd
            (le_of_eq ((beq_iff_eq.1 ha).trans (beq_iff_eq.1 hb).symm)) hr
        · simp [List.filter_cons, ha, hb, ih]
      · by_cases hb : b.metric == m <;> simp [List.filter_cons, ha, hb, ih]

theorem filter_insertionSort (m : String) (l : List Datum) :
    (List.insertionSort metricLe l).filter (fun d => d.metric == m) =
      l.filter (fun d => d.metric == m) := by
  induction l with
  | nil => rfl
  | cons a l ih =>
    rw [List.insertionSort, filter_orderedInsert, ih, List.filter_cons]

theorem groupRuns_cons_eq (d : Datum) (rest : List Datum) :
    groupRuns (d :: rest) =
      match groupRuns rest with
      | [] => [(d.metric, [d])]
      | (k, g) :: gs =>
        if d.metric = k then (k, d :: g) :: gs
        else (d.metric, [d]) :: (k, g) :: gs := rfl

theorem groupRuns_cons (d : Datum) (rest : List Datum) :
    ∃ g gs, groupRuns (d :: rest) = (d.metric, g) :: gs := by
  rw [groupRuns_cons_eq]
  cases h : groupRuns rest with
  | nil => exact ⟨[d], [], rfl⟩
  | cons kg gs =>
    obtain ⟨k, g⟩ := kg
    by_cases hd : d.metric = k
    · exact ⟨d :: g, gs, by simp [hd]⟩
    · exact ⟨[d], (k, g) :: gs, by simp [hd]⟩

theorem groupRuns_eq_nil {L : List Datum} (h : groupRuns L = []) : L = [] := by
  cases L with
  | nil => rfl
  | cons d rest =>
    obtain ⟨g, gs, hgs⟩ := groupRuns_cons d rest
    rw [hgs] at h
    exact absurd h (by simp)

theorem flatMap_groupRuns (L : List Datum) :
    (groupRuns L).flatMap (·.2) = L := by
  induction L with
  | nil => rfl
  | cons d rest ih =>
    rw [groupRuns_cons_eq]
    cases h : groupRuns rest with
    | nil =>
      rw [groupRuns_eq_nil h]
      rfl
    | cons kg gs =>
      obtain ⟨k, g⟩ := kg
      rw [h] at ih
      by_cases hd : d.metric = k
      · simp only [if_pos hd, List.flatMap_cons, List.cons_append] at ih ⊢
        rw [ih]
      · simp only [if_neg hd, List.flatMap_cons, List.cons_append,
          List.nil_append] at ih ⊢
        rw [ih]

theorem mapLookup_groupRuns {L : List Datum} (hs : L.Pairwise metricLe)
    (m : String) :
    mapLookup m (groupRuns L) =
      if (L.filter fun d => d.metric == m) = [] then none
      else some (L.filter fun d => d.metric == m) := by
  induction L with
  | nil => simp [groupRuns, mapLookup]
  | cons d rest ih =>
    rcases List.pairwise_cons.1 hs with ⟨hd, hrest⟩
    cases rest with
    | nil =>
      by_cases hm : d.metric = m
      · simp [groupRuns, mapLookup, List.filter_cons, hm]
      · simp [groupRuns, mapLookup, List.filter_cons, hm]
    | cons e rest' =>
      obtain ⟨g, gs, hgr⟩ := groupRuns_cons e rest'
      have ihe := ih hrest
      rw [hgr] at ihe
      have hde_le : d.metric ≤ e.metric := hd e (by simp)
      have he_all : ∀ x ∈ rest', metricLe e x :=
        (List.pairwise_cons.1 hrest).1
      rw [groupRuns_cons_eq, hgr]
      by_cases hde : d.metric = e.metric
      · simp only [if_pos hde]
        by_cases hm : e.metric = m
        · have hlook : mapLookup m ((e.metric, g) :: gs) = some g := by
            simp [mapLookup, hm]
          rw [hlook] at ihe
          have hne : ¬ ((e :: rest').filter fun d => d.metric == m) = [] := by
            intro hnil
            rw [if_pos hnil] at ihe
            exact Option.noConfusion ihe
          rw [if_neg hne] at ihe
          have hg : g = (e :: rest').filter fun d => d.metric == m :=
            Option.some.inj ihe
          have hdm : (d.metric == m) = true := beq_iff_eq.2 (hde.trans hm)
          have hfe : ((d :: e :: rest').filter fun d => d.metric == m)
              = d :: ((e :: rest').filter fun d => d.metric == m) := by
            rw [List.filter_cons, if_pos hdm]
          have hlhs : mapLookup m ((e.metric, d :: g) :: gs)
              = some (d :: g) := by
            simp [mapLookup, hm]
          rw [hlhs, hfe, if_neg (by simp), hg]
        · have hlook : mapLookup m ((e.metric, d :: g) :: gs) =
              mapLookup m gs := by
            simp [mapLookup, hm]
          have hlook' : mapLookup m ((e.metric, g) :: gs) =
              mapLookup m gs := by
            simp [mapLookup, hm]
          rw [hlook'] at ihe
          have hdm : ¬ (d.metric == m) = true := by
            simp only [beq_iff_eq]
            rw [hde]
            exact hm
          have hfe : ((d :: e :: rest').filter fun d => d.metric == m)
              = (e :: rest').filter fun d => d.metric == m := by
            rw [List.filter_cons, if_neg hdm]
          rw [hlook, hfe]
          exact ihe
      · simp only [if_neg hde]
        have hdlt : d.metric < e.metric := lt_of_le_of_ne hde_le hde
        by_cases hm : d.metric = m
        · have hlook : mapLookup m ((d.metric, [d]) :: (e.metric, g) :: gs) =
              some [d] := by
            simp [mapLookup, hm]
          have hfil : ((e :: rest').filter fun d => d.metric == m) = [] := by
            rw [List.filter_eq_nil_iff]
            intro x hx
            simp only [beq_iff_eq]
            intro hxm
            rcases List.mem_cons.1 hx with he | hmem
            · rw [he] at hxm
              exact hdlt.ne' (hxm.trans hm.symm)
            · have hex : e.metric ≤ x.metric := he_all x hmem
              exact (lt_of_lt_of_le hdlt hex).ne' (hxm.trans hm.symm)
          have hdm : (d.metric == m) = true := beq_iff_eq.2 hm
          have hfe : ((d :: e :: rest').filter fun d => d.metric == m)
              = [d] := by
            rw [List.filter_cons, if_pos hdm, hfil]
          rw [hlook, hfe, if_neg (by simp)]
        · have hlook : mapLookup m ((d.metric, [d]) :: (e.metric, g) :: gs)
              = mapLookup m ((e.metric, g) :: gs) := by
            simp [mapLookup, hm]
          have hdm : ¬ (d.metric == m) = true := by simpa using hm
          have hfe : ((d :: e :: rest').filter fun d => d.metric == m)
              = (e :: rest').filter fun d => d.metric == m := by
            rw [List.filter_cons, if_neg hdm]
          rw [hlook, hfe]
          exact ihe

theorem keysSorted_groupRuns {L : List Datum} (hs : L.Pairwise metricLe) :
    KeysSorted (groupRuns L) := by
  induction L with
  | nil => simp [groupRuns, KeysSorted]
  | cons d rest ih =>
    rcases List.pairwise_cons.1 hs with ⟨hd, hrest⟩
    cases rest with
    | nil => simp [groupRuns, KeysSorted]
    | cons e rest' =>
      obtain ⟨g, gs, hgr⟩ := groupRuns_cons e rest'
      have ihe := ih hrest
      rw [hgr] at ihe
      rw [KeysSorted, List.pairwise_cons] at ihe
      obtain ⟨hhead, htail⟩ := ihe
      rw [groupRuns_cons_eq, hgr]
      dsimp only
      by_cases hde : d.metric = e.metric
      · rw [if_pos hde, KeysSorted]
        exact List.pairwise_cons.2 ⟨fun b hb => hhead b hb, htail⟩
      · rw [if_neg hde, KeysSorted]
        have hdlt : d.metric < e.metric :=
          lt_of_le_of_ne (hd e (by simp)) hde
        refine List.pairwise_cons.2 ⟨?_, List.pairwise_cons.2 ⟨hhead, htail⟩⟩
        intro b hb
        rcases List.mem_cons.1 hb with he | hmem
        · rw [he]
          exact hdlt
        · exact lt_trans hdlt (hhead b hmem)

theorem btreeInsert_of_gt {k : String} {v : α} {m : List (String × α)}
    (h : ∀ kv ∈ m, kv.1 < k) : btreeInsert k v m = m ++ [(k, v)] := by
  induction m with
  | nil => rfl
  | cons kv rest ih =>
    have hlt : kv.1 < k := h kv (by simp)
    rw [btreeInsert, if_neg (asymm hlt), if_neg (ne_of_gt hlt)]
    rw [ih fun b hb => h b (by simp [hb])]
    rfl

theorem foldl_btreeInsert_of_keysSorted :
    ∀ (l m : List (String × α)), KeysSorted (m ++ l) →
      l.foldl (fun acc kv => btreeInsert kv.1 kv.2 acc) m = m ++ l
  | [], m, _ => by simp
  | kv :: rest, m, hm => by
    have hlt : ∀ b ∈ m, b.1 < kv.1 := by
      rw [KeysSorted, List.pairwise_append] at hm
      exact fun b hb => hm.2.2 b hb kv (by simp)
    rw [List.foldl_cons, btreeInsert_of_gt hlt, Prod.mk.eta]
    have hsorted : KeysSorted ((m ++ [kv]) ++ rest) := by
      rw [List.append_assoc, List.singleton_append]
      exact hm
    rw [foldl_btreeInsert_of_keysSorted rest (m ++ [kv]) hsorted]
    rw [List.append_assoc, List.singleton_append]

theorem btreeCollect_of_keysSorted {l : List (String × α)}
    (hl : KeysSorted l) : btreeCollect l = l := by
  have h := foldl_btreeInsert_of_keysSorted l [] (by simpa using hl)
  rw [btreeCollect, h]
  rfl

/-! ## Lemmas about the COPY writer -/

/-- Every datum of the batch carries every schema measurement name as a key
of its measurement map (possibly with an unset value): the condition under
which the measurement indexing of `write_and_close` cannot panic. -/
abbrev MeasurementKeysDense (meas : List (String × PgType))
    (data : List Datum) : Prop :=
  ∀ d ∈ data, ∀ kv ∈ meas, (mapLookup kv.1 d.measurements).isSome = true

theorem measurement_cells_length {d : Datum} :
    ∀ {meas : List (String × PgType)} {mcells : List Cell},
      measurement_cells d meas = some mcells → mcells.length = meas.length
  | [], mcells, h => by
    simp only [measurement_cells] at h
    rw [← Option.some.inj h]
    rfl
  | kv :: rest, mcells, h => by
    simp only [measurement_cells] at h
    cases hc : measurement_cell d kv.1 with
    | none => rw [hc] at h; exact Option.noConfusion h
    | some c =>
      cases hr : measurement_cells d rest with
      | none => rw [hc, hr] at h; exact Option.noConfusion h
      | some cs =>
        rw [hc, hr] at h
        rw [← Option.some.inj h]
        simp [measurement_cells_length hr]

theorem measurement_cells_isSome {d : Datum} :
    ∀ (meas : List (String × PgType)),
      (∀ kv ∈ meas, (mapLookup kv.1 d.measurements).isSome = true) →
      ∃ mcells, measurement_cells d meas = some mcells
  | [], _ => ⟨[], rfl⟩
  | kv :: rest, h => by
    obtain ⟨m, hm⟩ := Option.isSome_iff_exists.1 (h kv (by simp))
    obtain ⟨cs, hcs⟩ := measurement_cells_isSome rest
      (fun kv' hkv' => h kv' (by simp [hkv']))
    refine ⟨measurement_cell_value m :: cs, ?_⟩
    simp only [measurement_cells, measurement_cell, hm, Option.map_some', hcs]

theorem measurement_cells_getElem {d : Datum} :
    ∀ {meas : List (String × PgType)} {mcells : List Cell},
      measurement_cells d meas = some mcells →
      ∀ {i : Nat} {kv : String × PgType}, meas[i]? = some kv →
        mcells[i]? = measurement_cell d kv.1
  | [], _, _, i, kv, hkv => by simp at hkv
  | kv' :: rest, mcells, h, i, kv, hkv => by
    simp only [measurement_cells] at h
    cases hc : measurement_cell d kv'.1 with
    | none => rw [hc] at h; exact Option.noConfusion h
    | some c =>
      cases hr : measurement_cells d rest with
      | none => rw [hc, hr] at h; exact Option.noConfusion h
      | some cs =>
        rw [hc, hr] at h
        rw [← Option.some.inj h]
        cases i with
        | zero =>
          simp only [List.getElem?_cons_zero, Option.some.injEq] at hkv
          rw [hkv] at hc
          simp [hc]
        | succ n =>
          simp only [List.getElem?_cons_succ] at hkv ⊢
          exact measurement_cells_getElem hr hkv

theorem row_cells_eq {dims meas : List (String × PgType)} {d : Datum}
    {cw : List Cell × List String}
    (h : row_cells dims meas d = some cw) :
    ∃ mcells, measurement_cells d meas = some mcells ∧
      cw.1 = Cell.timestamp d.unix_nanos
        :: ((dims.map fun kv => (dimension_cell d kv.1).1) ++ mcells) ∧
      cw.2 = dims.flatMap fun kv => (dimension_cell d kv.1).2 := by
  rw [row_cells] at h
  obtain ⟨mcells, hmc, hcw⟩ := Option.map_eq_some'.1 h
  subst hcw
  exact ⟨mcells, hmc, rfl, rfl⟩

theorem row_cells_full_arity {dims meas : List (String × PgType)} {d : Datum}
    {cw : List Cell × List String}
    (h : row_cells dims meas d = some cw) :
    cw.1.length = 1 + dims.length + meas.length := by
  obtain ⟨mcells, hmc, hcells, _⟩ := row_cells_eq h
  rw [hcells]
  simp [measurement_cells_length hmc]
  omega

theorem write_rows_dense {dims meas : List (String × PgType)} :
    ∀ (data : List Datum), MeasurementKeysDense meas data →
      ∃ rw : List (List Cell) × List String,
        write_rows dims meas data = some rw ∧
        rw.1.length = data.length ∧
        (∀ row ∈ rw.1, ∃ d ∈ data, ∃ cw,
          row_cells dims meas d = some cw ∧ row = cw.1) ∧
        (∀ d ∈ data, ∃ cw, row_cells dims meas d = some cw ∧
          cw.1 ∈ rw.1 ∧ ∀ w ∈ cw.2, w ∈ rw.2)
  | [], _ => ⟨([], []), rfl, rfl, by simp, by simp⟩
  | d :: rest, h => by
    obtain ⟨mcells, hmc⟩ :=
      measurement_cells_isSome meas (fun kv hkv => h d (by simp) kv hkv)
    have hrowex : ∃ cw, row_cells dims meas d = some cw := by
      rw [row_cells, hmc]
      exact ⟨_, rfl⟩
    obtain ⟨cw, hrow⟩ := hrowex
    obtain ⟨cells, warns⟩ := cw
    obtain ⟨rw', hw, hlen, hrows, hdat⟩ :=
      write_rows_dense rest
        (fun d' hd' kv hkv => h d' (List.mem_cons_of_mem d hd') kv hkv)
    obtain ⟨rs, ws⟩ := rw'
    refine ⟨(cells :: rs, warns ++ ws), ?_, by simpa using hlen, ?_, ?_⟩
    · rw [write_rows, hrow, hw]
    · intro row hrow'
      rcases List.mem_cons.1 hrow' with he | hmem
      · exact ⟨d, by simp, (cells, warns), hrow, he⟩
      · obtain ⟨d', hd', cw', hcw, hr⟩ := hrows row hmem
        exact ⟨d', by simp [hd'], cw', hcw, hr⟩
    · intro d' hd'
      rcases List.mem_cons.1 hd' with he | hmem
      · subst he
        exact ⟨(cells, warns), hrow, by simp, fun w hw' => by simp [hw']⟩
      · obtain ⟨cw', hcw, hmem', hws⟩ := hdat d' hmem
        exact ⟨cw', hcw, by simp [hmem'],
          fun w hw' => by simp [hws w hw']⟩

theorem write_and_close_dense {dims meas : List (String × PgType)}
    {data : List Datum} (h : MeasurementKeysDense meas data) :
    ∃ res : WriteResult,
      write_and_close dims meas data = some res ∧
      res.rows.length = data.length ∧
      res.returned = data.length ∧
      (∀ row ∈ res.rows, row.length = 1 + dims.length + meas.length) ∧
      (∀ d ∈ data, ∃ cw, row_cells dims meas d = some cw ∧
        cw.1 ∈ res.rows ∧ ∀ w ∈ cw.2, w ∈ res.warns) := by
  obtain ⟨rw', hw, hlen, hrows, hdat⟩ := write_rows_dense data h
  refine ⟨⟨rw'.1, rw'.2, data.length⟩, ?_, hlen, rfl, ?_, hdat⟩
  · rw [write_and_close, hw, Option.map_some']
  · intro row hrow
    obtain ⟨d, _, cw, hcw, he⟩ := hrows row hrow
    rw [he]
    exact row_cells_full_arity hcw

/-! ## Concrete instances used by witnesses and counterexamples -/

/-- A `TypeConverter` as built at startup: the composite `statistic_set` and
`histogram` types fetched from the database. -/
def tcDefault : TypeConverter :=
  ⟨PgType.named "statistic_set", PgType.named "histogram"⟩

/-- A connection on which every DDL statement succeeds. -/
def oracleOk : DdlOracle :=
  ⟨fun _ _ _ => none, fun _ => none⟩

/-- An environment whose pool never yields a connection. -/
def never_checkout_env : SinkEnv :=
  ⟨fun _ => false, fun _ => RunResult.ok 1, fun _ => none, oracleOk⟩

/-- The postgres error for the C5 scenario: SQLSTATE 42703 whose message
names a cleaned column that no datum carries under its raw name. -/
def undefinedColumnFooError : PgError :=
  ⟨some ⟨SqlStateCode.undefinedColumn,
    "column \x22foo\x22 of relation \x22t\x22 does not exist"⟩, none⟩

/-- A datum whose raw dimension name `Foo` cleans to `foo` in the COPY
statement, so the error message's column name matches no raw key. -/
def datumFooRaw : Datum :=
  ⟨"m", 0, [("Foo", ⟨some (.string "x")⟩)], []⟩

/-- An environment in which `run_a_batch` keeps yielding the
`DescribedError` produced by an unmatched UNDEFINED_COLUMN. -/
def described_error_env : SinkEnv :=
  ⟨fun _ => true,
    fun _ => RunResult.err
      (.describedError "Type not foud, can't add column" undefinedColumnFooError),
    fun _ => none, oracleOk⟩

/-! ## Claim theorems -/

/-- C1: `handle_error_and_should_it_retry` returns retry=true exactly for
the two schema errors: for a `MissingColumn` it issues `add_column` with the
column's declared db-type (after the probe query) and returns true; for a
`MissingTable` it issues `create_table` and returns true; every classified
postgres error — INSUFFICIENT_PRIVILEGE, client-side wrong-type, any other
database error, and non-database transport errors — returns retry=false so
the batch is dropped. -/
theorem handle_error_retry_classification (oracle : DdlOracle) :
    (∀ table column data_type : String,
      oracle.add_column_result table column data_type = none →
      handle_error_and_should_it_retry oracle
          (.missingColumn table column data_type) =
        ([Effect.simpleQuery "select 1",
          Effect.addColumn table column data_type], .ok true)) ∧
    (∀ table : String,
      oracle.create_table_result table = none →
      handle_error_and_should_it_retry oracle (.missingTable table) =
        ([Effect.createTable table], .ok true)) ∧
    (∀ pg : PgError,
      handle_error_and_should_it_retry oracle (.postgres pg) =
        ([], .ok false)) := by
  refine ⟨?_, ?_, ?_⟩
  · intro t c dt h
    simp [handle_error_and_should_it_retry, h]
  · intro t h
    simp [handle_error_and_should_it_retry, h]
  · intro pg
    obtain ⟨db, src⟩ := pg
    cases db with
    | none =>
      cases src with
      | none => rfl
      | some b => cases b <;> rfl
    | some dberr =>
      obtain ⟨code, msg⟩ := dberr
      cases code <;> rfl

/-- Witness for C1 at concrete inputs. -/
theorem handle_error_retry_classification_witness :
    handle_error_and_should_it_retry oracleOk
        (.missingColumn "tab" "col" "int8") =
      ([Effect.simpleQuery "select 1",
        Effect.addColumn "tab" "col" "int8"], .ok true) ∧
    handle_error_and_should_it_retry oracleOk (.missingTable "tab") =
      ([Effect.createTable "tab"], .ok true) ∧
    handle_error_and_should_it_retry oracleOk
        (.postgres ⟨some ⟨SqlStateCode.insufficientPrivilege, "denied"⟩,
          none⟩) =
      ([], .ok false) :=
  ⟨(handle_error_retry_classification oracleOk).1 "tab" "col" "int8" rfl,
    (handle_error_retry_classification oracleOk).2.1 "tab" rfl,
    (handle_error_retry_classification oracleOk).2.2 _⟩

/-- C4 (amended): `sql_data_type_string` maps I64→int8, I32→int4,
F64→float8, F32→float4, StatisticSet→statistic_set and
Histogram→histogram (the DDL name of the JSONB-backed histogram type);
`measurement_sql_type` maps integer measurements (the wire `Inumber` arm)
to INT8, floating measurements (`Fnumber`) to FLOAT8, StatisticSet to the
converter's composite statistic_set type, and Histogram to JSONB. -/
theorem measurement_type_mapping (tc : TypeConverter) :
    (∀ i, sql_data_type_string ⟨some (.i64 i)⟩ = some "int8") ∧
    (∀ i, sql_data_type_string ⟨some (.i32 i)⟩ = some "int4") ∧
    (∀ f, sql_data_type_string ⟨some (.f64 f)⟩ = some "float8") ∧
    (∀ f, sql_data_type_string ⟨some (.f32 f)⟩ = some "float4") ∧
    (∀ s, sql_data_type_string ⟨some (.statisticSet s)⟩ =
      some "statistic_set") ∧
    (∀ h, sql_data_type_string ⟨some (.histogram h)⟩ = some "histogram") ∧
    (∀ i, tc.measurement_sql_type ⟨some (.i64 i)⟩ = some PgType.int8) ∧
    (∀ i, tc.measurement_sql_type ⟨some (.i32 i)⟩ = some PgType.int8) ∧
    (∀ f, tc.measurement_sql_type ⟨some (.f64 f)⟩ = some PgType.float8) ∧
    (∀ f, tc.measurement_sql_type ⟨some (.f32 f)⟩ = some PgType.float8) ∧
    (∀ s, tc.measurement_sql_type ⟨some (.statisticSet s)⟩ =
      some tc.statistic_set_type) ∧
    (∀ h, tc.measurement_sql_type ⟨some (.histogram h)⟩ =
      some PgType.jsonb) :=
  ⟨fun _ => rfl, fun _ => rfl, fun _ => rfl, fun _ => rfl, fun _ => rfl,
    fun _ => rfl, fun _ => rfl, fun _ => rfl, fun _ => rfl, fun _ => rfl,
    fun _ => rfl, fun _ => rfl⟩

/-- C4 counterexample: the DDL type name of a Histogram measurement is
`histogram`, not JSONB, and the COPY binding of an I32 measurement is INT8,
not INT4. -/
theorem measurement_type_table_counterexample :
    sql_data_type_string ⟨some (.histogram ⟨[]⟩)⟩ = some "histogram" ∧
    "histogram" ≠ "jsonb" ∧
    tcDefault.measurement_sql_type ⟨some (.i32 5)⟩ = some PgType.int8 ∧
    PgType.int8 ≠ PgType.int4 :=
  ⟨rfl, by decide, rfl, by decide⟩

/-- C5: an UNDEFINED_COLUMN error whose parsed (cleaned) column name matches
no raw dimension or measurement key classifies as `DescribedError`, and
`send_some` then panics in the `todo!()` arm of
`handle_error_and_should_it_retry` instead of succeeding: errors can escape
the per-metric attempt as a panic. -/
theorem send_some_described_error_panics :
    classify_copy_open_error [datumFooRaw] undefinedColumnFooError =
      .ok (.describedError "Type not foud, can't add column"
        undefinedColumnFooError) ∧
    handle_error_and_should_it_retry oracleOk
        (.describedError "Type not foud, can't add column"
          undefinedColumnFooError) =
      ([], .panic "not yet implemented") ∧
    send_some_loop described_error_env 2 0 =
      .panicked "not yet implemented" :=
  ⟨by decide, rfl, rfl⟩

/-- C6: when the first pool checkout fails, `send_some` logs "Dropping
metrics because I can't get a connection" but then `continue`s with
`try_again` still true: with a pool whose checkout always fails the loop
never drops the batch and never terminates, for every fuel bound. -/
theorem send_some_checkout_failure_loops (fuel i : Nat) :
    send_some_loop never_checkout_env fuel i = .outOfFuel := by
  induction fuel generalizing i with
  | zero => rfl
  | succ n ih => simpa [send_some_loop, never_checkout_env] using ih (i + 1)

/-- C10: a dimension or measurement entry whose tagged value is unset
contributes no entry to the batch column type maps: a name has a column in
the batch schema exactly when some datum carries a set value for it. -/
theorem unset_values_contribute_no_columns (tc : TypeConverter)
    (datums : List Datum) (n : String) :
    ((mapLookup n (tc.get_dimension_type_map datums)).isSome = true ↔
      ∃ kv ∈ datums.flatMap (·.dimensions),
        kv.1 = n ∧ kv.2.value.isSome = true) ∧
    ((mapLookup n (tc.get_measurement_type_map datums)).isSome = true ↔
      ∃ kv ∈ datums.flatMap (·.measurements),
        kv.1 = n ∧ kv.2.value.isSome = true) := by
  have hdim : ∀ d : Dimension,
      (tc.dimension_sql_type d).isSome = d.value.isSome := by
    intro d
    rw [TypeConverter.dimension_sql_type]
    cases d.value <;> rfl
  have hmeas : ∀ m : Measurement,
      (tc.measurement_sql_type m).isSome = m.value.isSome := by
    intro m
    rw [TypeConverter.measurement_sql_type]
    cases m.value <;> rfl
  constructor
  · rw [TypeConverter.get_dimension_type_map, mapLookup_btreeCollect,
      lastMatch_filterMap_isSome]
    exact exists_congr fun kv => and_congr_right fun _ =>
      and_congr_right fun _ => by rw [hdim kv.2]
  · rw [TypeConverter.get_measurement_type_map, mapLookup_btreeCollect,
      lastMatch_filterMap_isSome]
    exact exists_congr fun kv => and_congr_right fun _ =>
      and_congr_right fun _ => by rw [hmeas kv.2]

/-- C2 (amended): `run_a_batch` builds the column-name vector as `"time"`
followed by `clean_id` of the dimension names taken in ascending raw
byte-wise order, then `clean_id` of the measurement names in ascending raw
order; the type vector is TIMESTAMPTZ followed by the types in exactly the
same order; the two vectors have equal length; and the COPY statement is a
pure function of the batch, so two runs on the same input are identical. -/
theorem run_a_batch_column_vectors (tc : TypeConverter)
    (datums : List Datum) (metric : String) :
    get_all_column_names (tc.get_dimension_type_map datums)
        (tc.get_measurement_type_map datums) =
      "time" :: (((tc.get_dimension_type_map datums).map fun kv =>
          clean_id kv.1)
        ++ ((tc.get_measurement_type_map datums).map fun kv =>
          clean_id kv.1)) ∧
    get_all_column_types (tc.get_dimension_type_map datums)
        (tc.get_measurement_type_map datums) =
      PgType.timestamptz :: (((tc.get_dimension_type_map datums).map (·.2))
        ++ ((tc.get_measurement_type_map datums).map (·.2))) ∧
    KeysSorted (tc.get_dimension_type_map datums) ∧
    KeysSorted (tc.get_measurement_type_map datums) ∧
    (get_all_column_names (tc.get_dimension_type_map datums)
        (tc.get_measurement_type_map datums)).length =
      (get_all_column_types (tc.get_dimension_type_map datums)
        (tc.get_measurement_type_map datums)).length ∧
    copy_statement metric (get_all_column_names
        (tc.get_dimension_type_map datums)
        (tc.get_measurement_type_map datums)) =
      copy_statement metric (get_all_column_names
        (tc.get_dimension_type_map datums)
        (tc.get_measurement_type_map datums)) := by
  refine ⟨rfl, rfl, ?_, ?_, ?_, rfl⟩
  · exact keysSorted_btreeCollect _
  · exact keysSorted_btreeCollect _
  · simp [get_all_column_names, get_all_column_types]

/-- A datum whose raw dimension names `B` and `a` sort as `B < a` in raw
byte order but clean to `b` and `a`, which are in the opposite order. -/
def datumMixedCase : Datum :=
  ⟨"m", 0, [("B", ⟨some (.boolean true)⟩), ("a", ⟨some (.string "x")⟩)], []⟩

/-- C2 counterexample: with raw dimension names `B` and `a` the name vector
is `["time", "b", "a"]` — the cleaned names are not in ascending byte-wise
order, because the map sorts the raw names and `clean_id` (lowercasing) is
applied after sorting. -/
theorem column_order_cleaned_names_counterexample :
    get_all_column_names
        (tcDefault.get_dimension_type_map [datumMixedCase])
        (tcDefault.get_measurement_type_map [datumMixedCase]) =
      ["time", "b", "a"] ∧
    ¬ List.Chain' (fun x y : String => x ≤ y) ["b", "a"] := by
  constructor
  · have hlt : ¬ ("a" : String) < "B" := by
      rw [String.lt_iff_toList_lt]
      decide
    have hne : ("a" : String) ≠ "B" := by decide
    have hmap : tcDefault.get_dimension_type_map [datumMixedCase] =
        [("B", PgType.bool), ("a", PgType.text)] := by
      rw [TypeConverter.get_dimension_type_map]
      show btreeCollect [("B", PgType.bool), ("a", PgType.text)] = _
      show btreeInsert "a" PgType.text (btreeInsert "B" PgType.bool []) = _
      rw [show btreeInsert "B" PgType.bool ([] : List (String × PgType)) =
        [("B", PgType.bool)] from rfl]
      rw [btreeInsert, if_neg hlt, if_neg hne]
      rfl
    have hmmap : tcDefault.get_measurement_type_map [datumMixedCase] =
        [] := rfl
    rw [get_all_column_names, hmap, hmmap]
    decide
  · have hle : ¬ ("b" : String) ≤ "a" := by
      rw [String.le_iff_toList_le]
      decide
    simp only [List.chain'_cons, List.chain'_singleton, and_true]
    exact hle

/-- C7 (amended): the projection maps are sorted by name and map each name
to the db type of the last observation *with a set value* in iteration
order (later datums win on conflict); a name all of whose occurrences are
unset yields no entry. -/
theorem type_maps_sorted_last_set_observation_wins (tc : TypeConverter)
    (datums : List Datum) :
    KeysSorted (tc.get_dimension_type_map datums) ∧
    KeysSorted (tc.get_measurement_type_map datums) ∧
    (∀ n, mapLookup n (tc.get_dimension_type_map datums) =
      ((((datums.flatMap (·.dimensions)).filterMap fun kv =>
          (tc.dimension_sql_type kv.2).map fun t => (kv.1, t)).filter
            fun kv => kv.1 == n).getLast?).map (·.2)) ∧
    (∀ n, mapLookup n (tc.get_measurement_type_map datums) =
      ((((datums.flatMap (·.measurements)).filterMap fun kv =>
          (tc.measurement_sql_type kv.2).map fun t => (kv.1, t)).filter
            fun kv => kv.1 == n).getLast?).map (·.2)) := by
  refine ⟨keysSorted_btreeCollect _, keysSorted_btreeCollect _, ?_, ?_⟩
  · intro n
    rw [TypeConverter.get_dimension_type_map, mapLookup_btreeCollect,
      lastMatch_eq_getLast?_filter]
  · intro n
    rw [TypeConverter.get_measurement_type_map, mapLookup_btreeCollect,
      lastMatch_eq_getLast?_filter]

/-- C7 counterexample: the name `a` occurs in a datum of the slice, but only
with an unset value, so the dimension type map contains no entry for it —
the map does not "contain an entry for every dimension name occurring in
any datum of the slice". -/
theorem type_map_unset_name_counterexample :
    mapLookup "a" (tcDefault.get_dimension_type_map
        [⟨"m", 0, [("a", ⟨none⟩)], []⟩]) = none ∧
    ("a", (⟨none⟩ : Dimension)) ∈
      ([⟨"m", 0, [("a", ⟨none⟩)], []⟩] : List Datum).flatMap
        (·.dimensions) :=
  ⟨rfl, by decide⟩

/-- C8: `group_metrics` partitions the batch by metric name: the group
looked up under a metric name is exactly the input filtered to that metric,
in input order (the sort is stable, so intra-metric order is preserved and
every datum appears exactly once, in the group keyed by its own metric),
and the groups joined back together are a permutation of the input. -/
theorem group_metrics_partition (batch : List Datum) :
    (∀ m, mapLookup m (group_metrics batch) =
      if (batch.filter fun d => d.metric == m) = [] then none
      else some (batch.filter fun d => d.metric == m)) ∧
    List.Perm ((group_metrics batch).flatMap (·.2)) batch := by
  have hsorted : List.Pairwise metricLe (List.insertionSort metricLe batch) :=
    List.sorted_insertionSort metricLe batch
  constructor
  · intro m
    rw [group_metrics,
      btreeCollect_of_keysSorted (keysSorted_groupRuns hsorted),
      mapLookup_groupRuns hsorted, filter_insertionSort]
  · rw [group_metrics,
      btreeCollect_of_keysSorted (keysSorted_groupRuns hsorted),
      flatMap_groupRuns]
    exact List.perm_insertionSort metricLe batch

/-- A datum carrying measurement `m1` with a set value. -/
def datumMeasSet : Datum := ⟨"m", 0, [], [("m1", ⟨some (.i64 3)⟩)]⟩

/-- A datum carrying measurement `m1` as a key with an unset value. -/
def datumMeasUnset : Datum := ⟨"m", 1, [], [("m1", ⟨none⟩)]⟩

/-- A datum lacking the measurement key `m1` entirely. -/
def datumMeasLacking : Datum := ⟨"m", 1, [], []⟩

/-- C3 (amended): provided every datum of the batch carries every schema
measurement name as a key of its measurement map, `write_and_close` does
not fail, and a datum whose entry for a schema measurement name has an
unset value gets a float8-typed NULL (`Option::<f64>::None`) in that cell;
a datum lacking the key entirely instead panics (see the counterexample). -/
theorem write_unset_measurement_value_nullF64 (tc : TypeConverter)
    (data : List Datum) (d : Datum) (n : String) (i : Nat)
    (kv : String × PgType)
    (hd : d ∈ data)
    (hdense : MeasurementKeysDense (tc.get_measurement_type_map data) data)
    (hkv : (tc.get_measurement_type_map data)[i]? = some kv)
    (hn : kv.1 = n)
    (hunset : mapLookup n d.measurements = some ⟨none⟩) :
    ∃ res : WriteResult,
      write_and_close (tc.get_dimension_type_map data)
          (tc.get_measurement_type_map data) data = some res ∧
      res.returned = data.length ∧
      ∃ cw, row_cells (tc.get_dimension_type_map data)
          (tc.get_measurement_type_map data) d = some cw ∧
        cw.1 ∈ res.rows ∧
        cw.1[1 + (tc.get_dimension_type_map data).length + i]? =
          some Cell.nullF64 := by
  obtain ⟨res, hwc, _, hret, _, hdat⟩ :=
    @write_and_close_dense (tc.get_dimension_type_map data) _ _ hdense
  obtain ⟨cw, hcw, hmem, _⟩ := hdat d hd
  refine ⟨res, hwc, hret, cw, hcw, hmem, ?_⟩
  obtain ⟨mcells, hmc, hcells, _⟩ := row_cells_eq hcw
  rw [hcells]
  have hdl : (List.map (fun kv => (dimension_cell d kv.1).1)
      (tc.get_dimension_type_map data)).length =
      (tc.get_dimension_type_map data).length := List.length_map _ _
  rw [show 1 + (tc.get_dimension_type_map data).length + i =
    ((tc.get_dimension_type_map data).length + i) + 1 by omega]
  rw [List.getElem?_cons_succ,
    List.getElem?_append_right (by rw [hdl]; omega)]
  rw [show (tc.get_dimension_type_map data).length + i -
      (List.map (fun kv => (dimension_cell d kv.1).1)
        (tc.get_dimension_type_map data)).length = i by rw [hdl]; omega]
  rw [measurement_cells_getElem hmc hkv, measurement_cell, hn, hunset,
    Option.map_some']
  rfl

/-- Witness for C3 at a concrete two-datum batch. -/
theorem write_unset_measurement_value_nullF64_witness :
    datumMeasUnset ∈ [datumMeasSet, datumMeasUnset] ∧
    MeasurementKeysDense
      (tcDefault.get_measurement_type_map [datumMeasSet, datumMeasUnset])
      [datumMeasSet, datumMeasUnset] ∧
    (tcDefault.get_measurement_type_map
      [datumMeasSet, datumMeasUnset])[0]? = some ("m1", PgType.int8) ∧
    mapLookup "m1" datumMeasUnset.measurements =
      some ⟨none⟩ ∧
    (∃ res : WriteResult,
      write_and_close
          (tcDefault.get_dimension_type_map [datumMeasSet, datumMeasUnset])
          (tcDefault.get_measurement_type_map [datumMeasSet, datumMeasUnset])
          [datumMeasSet, datumMeasUnset] = some res ∧
      res.returned = ([datumMeasSet, datumMeasUnset] : List Datum).length ∧
      ∃ cw, row_cells
          (tcDefault.get_dimension_type_map [datumMeasSet, datumMeasUnset])
          (tcDefault.get_measurement_type_map [datumMeasSet, datumMeasUnset])
          datumMeasUnset = some cw ∧
        cw.1 ∈ res.rows ∧
        cw.1[1 + (tcDefault.get_dimension_type_map
          [datumMeasSet, datumMeasUnset]).length + 0]? =
          some Cell.nullF64) :=
  ⟨by decide, by decide, by decide, by decide,
    write_unset_measurement_value_nullF64 tcDefault
      [datumMeasSet, datumMeasUnset] datumMeasUnset "m1" 0
      ("m1", PgType.int8) (by decide) (by decide) (by decide) rfl
      (by decide)⟩

/-- C3 counterexample: a datum that entirely lacks a measurement name
present in the batch schema makes `write_and_close` panic (the unguarded
`&datum.measurements[measurement_name]` indexing), modelled as `none` — it
does not emit a row with a typed NULL. -/
theorem write_missing_measurement_key_panics :
    write_and_close
        (tcDefault.get_dimension_type_map [datumMeasSet, datumMeasLacking])
        (tcDefault.get_measurement_type_map [datumMeasSet, datumMeasLacking])
        [datumMeasSet, datumMeasLacking] = none := by
  decide

/-- A datum carrying dimension `a` with a set value. -/
def datumDimSet : Datum := ⟨"m", 0, [("a", ⟨some (.string "x")⟩)], []⟩

/-- A datum lacking the dimension key `a`. -/
def datumDimLacking : Datum := ⟨"m", 1, [], []⟩

/-- C9 (amended): provided every datum of the batch carries every schema
measurement name as a key, a datum lacking a dimension name present in the
batch schema still yields a full-arity row; its cell for that dimension is
the untyped NULL (`Option::<String>::None`) and the warning
`skipping dimension: <name>` is logged.  Without the measurement-density
side condition the writer panics before emitting the row (see the
counterexample and C3). -/
theorem write_missing_dimension_null_and_warn (tc : TypeConverter)
    (data : List Datum) (d : Datum) (n : String) (j : Nat)
    (kv : String × PgType)
    (hd : d ∈ data)
    (hdense : MeasurementKeysDense (tc.get_measurement_type_map data) data)
    (hkv : (tc.get_dimension_type_map data)[j]? = some kv)
    (hn : kv.1 = n)
    (hmiss : mapLookup n d.dimensions = none) :
    ∃ res : WriteResult,
      write_and_close (tc.get_dimension_type_map data)
          (tc.get_measurement_type_map data) data = some res ∧
      (∀ row ∈ res.rows,
        row.length = 1 + (tc.get_dimension_type_map data).length
          + (tc.get_measurement_type_map data).length) ∧
      ∃ cw, row_cells (tc.get_dimension_type_map data)
          (tc.get_measurement_type_map data) d = some cw ∧
        cw.1 ∈ res.rows ∧
        cw.1[1 + j]? = some Cell.nullString ∧
        ("skipping dimension: " ++ n) ∈ res.warns := by
  obtain ⟨res, hwc, _, _, harity, hdat⟩ :=
    @write_and_close_dense (tc.get_dimension_type_map data) _ _ hdense
  obtain ⟨cw, hcw, hmem, hws⟩ := hdat d hd
  refine ⟨res, hwc, harity, cw, hcw, hmem, ?_, ?_⟩
  · obtain ⟨mcells, _, hcells, _⟩ := row_cells_eq hcw
    rw [hcells]
    have hj : j < (tc.get_dimension_type_map data).length := by
      rcases List.getElem?_eq_some_iff.1 hkv with ⟨hlt, _⟩
      exact hlt
    rw [show 1 + j = j + 1 by omega, List.getElem?_cons_succ,
      List.getElem?_append_left (by simpa using hj),
      List.getElem?_map]
    rw [hkv, Option.map_some', hn, dimension_cell, hmiss]
  · apply hws
    obtain ⟨_, _, _, hwarns⟩ := row_cells_eq hcw
    rw [hwarns]
    refine List.mem_flatMap.2 ⟨kv, List.getElem?_mem hkv, ?_⟩
    rw [hn, dimension_cell, hmiss]
    simp

/-- Witness for C9 at a concrete two-datum batch. -/
theorem write_missing_dimension_null_and_warn_witness :
    datumDimLacking ∈ [datumDimSet, datumDimLacking] ∧
    MeasurementKeysDense
      (tcDefault.get_measurement_type_map [datumDimSet, datumDimLacking])
      [datumDimSet, datumDimLacking] ∧
    (tcDefault.get_dimension_type_map
      [datumDimSet, datumDimLacking])[0]? = some ("a", PgType.text) ∧
    mapLookup "a" datumDimLacking.dimensions = none ∧
    (∃ res : WriteResult,
      write_and_close
          (tcDefault.get_dimension_type_map [datumDimSet, datumDimLacking])
          (tcDefault.get_measurement_type_map [datumDimSet, datumDimLacking])
          [datumDimSet, datumDimLacking] = some res ∧
      (∀ row ∈ res.rows,
        row.length = 1 + (tcDefault.get_dimension_type_map
            [datumDimSet, datumDimLacking]).length
          + (tcDefault.get_measurement_type_map
            [datumDimSet, datumDimLacking]).length) ∧
      ∃ cw, row_cells
          (tcDefault.get_dimension_type_map [datumDimSet, datumDimLacking])
          (tcDefault.get_measurement_type_map [datumDimSet, datumDimLacking])
          datumDimLacking = some cw ∧
        cw.1 ∈ res.rows ∧
        cw.1[1 + 0]? = some Cell.nullString ∧
        ("skipping dimension: " ++ "a") ∈ res.warns) :=
  ⟨by decide, by decide, by decide, by decide,
    write_missing_dimension_null_and_warn tcDefault
      [datumDimSet, datumDimLacking] datumDimLacking "a" 0
      ("a", PgType.text) (by decide) (by decide) (by decide) rfl
      (by decide)⟩

/-- A datum carrying dimension `a` and measurement `v`, both set. -/
def datumRich : Datum :=
  ⟨"m", 0, [("a", ⟨some (.string "x")⟩)], [("v", ⟨some (.i64 1)⟩)]⟩

/-- A datum carrying neither the dimension `a` nor the measurement `v`. -/
def datumBare : Datum := ⟨"m", 1, [], []⟩

/-- C9 counterexample: `datumBare`'s dimension map lacks the schema
dimension `a`, yet no row is written at all — the writer panics on the
missing measurement key `v` before the row can be emitted, so the claim's
"the row is still written with full arity" fails as stated. -/
theorem write_missing_dimension_row_not_written_counterexample :
    mapLookup "a" datumBare.dimensions = none ∧
    (tcDefault.get_dimension_type_map [datumRich, datumBare])[0]? =
      some ("a", PgType.text) ∧
    write_and_close
        (tcDefault.get_dimension_type_map [datumRich, datumBare])
        (tcDefault.get_measurement_type_map [datumRich, datumBare])
        [datumRich, datumBare] = none :=
  ⟨rfl, by decide, by decide⟩

end Goodmetrics
